import Mathlib

/-!
Verification of the ZooRush enclosure/animal simulation core.

Shallow embedding of `src/enclosure.py`, `src/map.py`, `src/hud.py`
(`calculate_bulldozer_cost`) and `src/main.py` (`calculate_income`).

Modelling conventions:
* Python floats are embedded as exact rationals (`ℚ`).
* Every call to the `random` module is replaced by an explicit oracle value
  supplied as an argument; `random.uniform(a, b)` is modelled as
  `a + (b - a) * u` for an oracle value `u` (with `0 ≤ u ≤ 1` as a hypothesis
  where a theorem needs it).
* `(dx**2 + dy**2)**0.5 < c` comparisons with `c ≥ 0` are embedded as the
  exact-real-equivalent `dx^2 + dy^2 < c^2`; the one place where the square
  root's value itself is used (normalising the movement vector) takes the
  value of `(dx**2 + dy**2)**0.5` from the oracle (field `dist`).
* Python exceptions (`ValueError` from `list.remove`, `NameError` from an
  undefined global) are embedded as `Except PyError` results.
-/

/-- utils.py: the `Direction` enum. -/
inductive Direction where
  | NORTH
  | SOUTH
  | WEST
  | EAST
deriving DecidableEq, Repr

/-- utils.py: the `EnclosureType` enum. -/
inductive EnclosureType where
  | TOP
  | BOTTOM
  | LEFT
  | RIGHT
  | TOP_LEFT
  | TOP_RIGHT
  | BOTTOM_LEFT
  | BOTTOM_RIGHT
deriving DecidableEq, Repr

/-- utils.py: `stick_in_range(value, min_value, max_value)`. -/
def stick_in_range (value min_value max_value : ℚ) : ℚ :=
  max (min value max_value) min_value

/-- Model of `random.uniform(a, b)`: `a + (b - a) * u` for an oracle draw `u`;
`u ∈ [0, 1]` is assumed as a hypothesis where needed. -/
def uniform (a b u : ℚ) : ℚ :=
  a + (b - a) * u

/-- Python exceptions that the embedded code can raise. -/
inductive PyError where
  | valueError
  | nameError
deriving DecidableEq, Repr

/-- enclosure.py, class `Animal`: all mutable attributes set in `__init__`. -/
structure Animal where
  species : String
  x : ℚ
  y : ℚ
  hunger : ℚ
  thirst : ℚ
  happiness : ℚ
  health : ℚ
  direction : Direction
  speed : ℚ
  move_timer : ℚ
  move_interval : ℚ
  target_x : ℚ
  target_y : ℚ
  is_idle : Bool
  idle_timer : ℚ
  idle_duration : ℚ
  previous_animation : String
  animation_timer : ℚ
  walk_animation_speed : ℚ
  idle_animation_speed : ℚ
  current_frame : ℕ
  collision_radius : ℚ
deriving DecidableEq, Repr

/-- enclosure.py, `Animal.__init__(species, x, y)`; `u_mi` is the oracle draw
for `random.uniform(1.5, 3.0)` initialising `move_interval`. -/
def Animal.init (species : String) (x y : ℚ) (u_mi : ℚ) : Animal where
  species := species
  x := x
  y := y
  hunger := 100
  thirst := 100
  happiness := 100
  health := 100
  direction := .SOUTH
  speed := 4/5
  move_timer := 0
  move_interval := uniform (3/2) 3 u_mi
  target_x := x
  target_y := y
  is_idle := false
  idle_timer := 0
  idle_duration := 0
  previous_animation := "walk"
  animation_timer := 0
  walk_animation_speed := 12/100
  idle_animation_speed := 1/4
  current_frame := 0
  collision_radius := 2/5

/-- One tick's worth of oracle draws for `Animal.update`/`random_movement`,
one field per call site of the `random` module (plus `dist`, the float value
of `(dx**2 + dy**2)**0.5` computed in the movement branch). -/
structure MoveOracle where
  uIdleTX : ℚ := 0
  uIdleTY : ℚ := 0
  uIdleMI : ℚ := 0
  uRetMI : ℚ := 0
  rChance : ℚ := 1
  uRetIdleDur : ℚ := 0
  uRetTX : ℚ := 0
  uRetTY : ℚ := 0
  uArrIdleDur : ℚ := 0
  dist : ℚ := 1
  uColIdleDur : ℚ := 0
deriving DecidableEq, Repr

/-- The boundary tuple `(min_x, min_y, max_x, max_y)` passed to
`Animal.random_movement`. -/
structure Bounds where
  min_x : ℚ
  min_y : ℚ
  max_x : ℚ
  max_y : ℚ
deriving DecidableEq, Repr

/-- enclosure.py, `Animal.get_current_animation`. -/
def Animal.get_current_animation (a : Animal) : String :=
  if a.is_idle then "idle" else "walk"

/-- enclosure.py, `Animal.feed`. -/
def Animal.feed (a : Animal) (food_amount : ℚ) : Animal :=
  { a with hunger := min 100 (a.hunger + food_amount) }

/-- enclosure.py, `Animal.give_water`. -/
def Animal.give_water (a : Animal) (water_amount : ℚ) : Animal :=
  { a with thirst := min 100 (a.thirst + water_amount) }

/-- enclosure.py, `Animal.play`. -/
def Animal.play (a : Animal) (play_time : ℚ) : Animal :=
  { a with happiness := min 100 (a.happiness + play_time) }

/-- enclosure.py, `Animal.heal`. -/
def Animal.heal (a : Animal) (health_amount : ℚ) : Animal :=
  { a with health := min 100 (a.health + health_amount) }

/-- enclosure.py, `Animal.check_collision_with_others`: the source compares
`(dx**2 + dy**2)**0.5 < self.collision_radius + other.collision_radius` for
each other animal, returning `True` on the first hit; squaring both sides of
the comparison (both are nonnegative) gives the embedded form. -/
def Animal.check_collision_with_others (a : Animal) (new_x new_y : ℚ)
    (other_animals : List Animal) : Bool :=
  other_animals.any fun other =>
    let dx := new_x - other.x
    let dy := new_y - other.y
    decide (dx ^ 2 + dy ^ 2 < (a.collision_radius + other.collision_radius) ^ 2)

/-- enclosure.py lines 198-212 of `Animal.random_movement` (idle handling);
`Sum.inl` is an early `return`, `Sum.inr` falls through to the rest of the
function. -/
def Animal.idlePhase (st : Animal) (delta_time : ℚ) (b : Bounds)
    (o : MoveOracle) : Animal ⊕ Animal :=
  if st.is_idle then
    let idle_timer := st.idle_timer + delta_time
    if idle_timer ≥ st.idle_duration then
      Sum.inr { st with
        is_idle := false
        idle_timer := 0
        target_x := uniform b.min_x b.max_x o.uIdleTX
        target_y := uniform b.min_y b.max_y o.uIdleTY
        move_timer := 0
        move_interval := uniform (3/2) 3 o.uIdleMI }
    else
      Sum.inl { st with idle_timer := idle_timer }
  else
    Sum.inr st

/-- enclosure.py lines 214-230 of `Animal.random_movement` (movement timer and
retargeting); `Sum.inl` is an early `return`, `Sum.inr` falls through. -/
def Animal.retargetPhase (st : Animal) (delta_time : ℚ) (b : Bounds)
    (o : MoveOracle) : Animal ⊕ Animal :=
  let st := { st with move_timer := st.move_timer + delta_time }
  if st.move_timer ≥ st.move_interval then
    let st := { st with move_timer := 0, move_interval := uniform (3/2) 3 o.uRetMI }
    if o.rChance < 3/10 then
      Sum.inl { st with is_idle := true, idle_duration := uniform 2 4 o.uRetIdleDur }
    else
      Sum.inr { st with
        target_x := uniform b.min_x b.max_x o.uRetTX
        target_y := uniform b.min_y b.max_y o.uRetTY }
  else
    Sum.inr st

/-- The per-tick x displacement `(dx / distance) * self.speed * delta_time`
computed in `Animal.random_movement`, with `o.dist` standing for the float
value of `distance = (dx**2 + dy**2)**0.5`. -/
def Animal.steer_dx (st : Animal) (delta_time : ℚ) (o : MoveOracle) : ℚ :=
  (st.target_x - st.x) / o.dist * st.speed * delta_time

/-- The per-tick y displacement, as `Animal.steer_dx`. -/
def Animal.steer_dy (st : Animal) (delta_time : ℚ) (o : MoveOracle) : ℚ :=
  (st.target_y - st.y) / o.dist * st.speed * delta_time

/-- enclosure.py lines 232-280 of `Animal.random_movement` (arrival check,
candidate move, collision check, commit, facing update).  The source's
`distance < 0.1` and `distance > 0` tests on `distance = (dx**2+dy**2)**0.5`
are embedded as the equivalent `dx^2 + dy^2 < (1/10)^2` and
`dx^2 + dy^2 > 0`. -/
def Animal.steerPhase (st : Animal) (delta_time : ℚ) (b : Bounds)
    (other_animals : List Animal) (o : MoveOracle) : Animal :=
  let dx := st.target_x - st.x
  let dy := st.target_y - st.y
  if dx ^ 2 + dy ^ 2 < (1/10) ^ 2 then
    if ¬ st.is_idle then
      { st with is_idle := true, idle_duration := uniform 1 (5/2) o.uArrIdleDur,
                idle_timer := 0 }
    else
      st
  else if dx ^ 2 + dy ^ 2 > 0 then
    let mdx := Animal.steer_dx st delta_time o
    let mdy := Animal.steer_dy st delta_time o
    let new_x := stick_in_range (st.x + mdx) b.min_x b.max_x
    let new_y := stick_in_range (st.y + mdy) b.min_y b.max_y
    if ¬ Animal.check_collision_with_others st new_x new_y other_animals then
      let st := { st with x := new_x, y := new_y }
      if |mdx| > |mdy| then
        if mdx > 0 then { st with direction := .EAST }
        else { st with direction := .WEST }
      else
        if mdy > 0 then { st with direction := .SOUTH }
        else { st with direction := .NORTH }
    else
      { st with is_idle := true, idle_duration := uniform (1/2) (3/2) o.uColIdleDur,
                idle_timer := 0 }
  else
    st

/-- enclosure.py, `Animal.random_movement`: the three phases chained with the
source's early returns. -/
def Animal.random_movement (st : Animal) (delta_time : ℚ) (boundaries : Bounds)
    (other_animals : List Animal) (o : MoveOracle) : Animal :=
  match Animal.idlePhase st delta_time boundaries o with
  | .inl fin => fin
  | .inr st1 =>
    match Animal.retargetPhase st1 delta_time boundaries o with
    | .inl fin => fin
    | .inr st2 => Animal.steerPhase st2 delta_time boundaries other_animals o

/-- enclosure.py lines 157-164 of `Animal.update`: unconditional stat decay
followed by health loss when (post-decay) hunger or thirst is zero. -/
def Animal.decayPhase (st : Animal) (delta_time : ℚ) : Animal :=
  let st1 := { st with
    hunger := max 0 (st.hunger - 1/10 * delta_time)
    thirst := max 0 (st.thirst - 1/10 * delta_time)
    happiness := max 0 (st.happiness - 1/20 * delta_time) }
  if st1.hunger = 0 ∨ st1.thirst = 0 then
    { st1 with health := max 0 (st1.health - 1/5 * delta_time) }
  else
    st1

/-- enclosure.py lines 172-184 of `Animal.update`: animation change
detection and frame advancement. -/
def Animal.animPhase (st : Animal) (delta_time : ℚ) : Animal :=
  let ca := Animal.get_current_animation st
  let st4 :=
    if ca ≠ st.previous_animation then
      { st with current_frame := 0, animation_timer := 0, previous_animation := ca }
    else
      st
  let current_speed :=
    if st4.is_idle then st4.idle_animation_speed else st4.walk_animation_speed
  let st5 := { st4 with animation_timer := st4.animation_timer + delta_time }
  if st5.animation_timer ≥ current_speed then
    { st5 with animation_timer := 0, current_frame := st5.current_frame + 1 }
  else
    st5

/-- enclosure.py, `Animal.update`: stat decay, conditional health loss,
random movement when boundaries are given, animation bookkeeping. -/
def Animal.update (st : Animal) (delta_time : ℚ)
    (enclosure_boundaries : Option Bounds) (other_animals : List Animal)
    (o : MoveOracle) : Animal :=
  let st2 := Animal.decayPhase st delta_time
  let st3 :=
    match enclosure_boundaries with
    | some b => Animal.random_movement st2 delta_time b other_animals o
    | none => st2
  Animal.animPhase st3 delta_time

/-- utils.py: the `Props` dataclass `(name, x, y, is_enclosure)`; dataclass
equality compares these fields, which is what `list.remove` uses. -/
structure Props where
  name : String
  x : ℤ
  y : ℤ
  is_enc : Bool := false
deriving DecidableEq, Repr

/-- enclosure.py, class `Enclosure`: the `Props` superclass fields plus the
attributes set in `Enclosure.__init__`.  `max_animals` uses Python's floor
division `(width-1) * (height-1) // 4` (`Int.fdiv`). -/
structure Enclosure where
  x : ℤ
  y : ℤ
  width : ℤ
  height : ℤ
  animals : List Animal
  max_animals : ℤ
deriving DecidableEq, Repr

/-- enclosure.py, `Enclosure.__init__(x, y, width, height)`. -/
def Enclosure.init (x y width height : ℤ) : Enclosure where
  x := x
  y := y
  width := width
  height := height
  animals := []
  max_animals := Int.fdiv ((width - 1) * (height - 1)) 4

/-- The `Props` dataclass part of an enclosure (`Props.__init__("enclosure",
x, y, True)` called by `Enclosure.__init__`); this is the value tiles refer
to. -/
def Enclosure.toProps (e : Enclosure) : Props :=
  ⟨"enclosure", e.x, e.y, true⟩

/-- enclosure.py, `Enclosure.add_animal`. -/
def Enclosure.add_animal (e : Enclosure) (animal : Animal) : Enclosure :=
  if (e.animals.length : ℤ) < e.max_animals then
    { e with animals := e.animals ++ [animal] }
  else
    e

/-- The boundary tuple built by `Enclosure.update_animals`:
`(x + 1, y + 1, x + width - 1, y + height - 1)`. -/
def Enclosure.interior (e : Enclosure) : Bounds where
  min_x := (e.x : ℚ) + 1
  min_y := (e.y : ℚ) + 1
  max_x := (e.x : ℚ) + (e.width : ℚ) - 1
  max_y := (e.y : ℚ) + (e.height : ℚ) - 1

/-- The `for animal in self.animals` loop of `Enclosure.update_animals`:
animal `k` is updated in place against the current states of all the others
(`[a for a in self.animals if a != animal]`, which drops exactly the iterated
object), so updated predecessors are seen by later animals.  `fuel` starts at
the list length; `os` supplies one oracle per animal. -/
def updateAnimalsLoop (delta_time : ℚ) (b : Bounds) (os : List MoveOracle) :
    ℕ → ℕ → List Animal → List Animal
  | 0, _, animals => animals
  | fuel + 1, k, animals =>
    match animals[k]? with
    | none => animals
    | some animal =>
      let other_animals := animals.eraseIdx k
      let a2 := Animal.update animal delta_time (some b) other_animals (os.getD k {})
      updateAnimalsLoop delta_time b os fuel (k + 1) (animals.set k a2)

/-- enclosure.py, `Enclosure.update_animals`. -/
def Enclosure.update_animals (e : Enclosure) (delta_time : ℚ)
    (os : List MoveOracle) : Enclosure :=
  { e with
    animals := updateAnimalsLoop delta_time (Enclosure.interior e) os
      e.animals.length 0 e.animals }

/-- Any finite sequence of `Enclosure.update_animals` calls, each with its own
frame delta and oracle draws. -/
def Enclosure.iterate_updates : List (ℚ × List MoveOracle) → Enclosure → Enclosure
  | [], e => e
  | (dt, os) :: rest, e => Enclosure.iterate_updates rest (e.update_animals dt os)

/-- utils.py: the `Tile` dataclass. -/
structure Tile where
  texture : Option ℕ := none
  orientation : Direction := .NORTH
  prop : Option Props := none
  main_prop_tile : Bool := false
  is_enc : Bool := false
  enclosure_type : Option EnclosureType := none
deriving DecidableEq, Repr

/-- map.py, class `Map`: the tile grid `self.map` (indexed `self.map[y][x]`,
embedded as a function from coordinates to tiles together with its
dimensions `len(self.map[0])` and `len(self.map)`), the props list and the
enclosures list. -/
structure GameMap where
  width : ℕ
  height : ℕ
  tiles : ℤ → ℤ → Tile
  props : List Props
  enclosures : List Enclosure

/-- map.py, `Map.get_tile`: bounds-checked lookup, `None` out of range. -/
def GameMap.get_tile (m : GameMap) (x y : ℤ) : Option Tile :=
  if 0 ≤ x ∧ x < (m.width : ℤ) ∧ 0 ≤ y ∧ y < (m.height : ℤ) then
    some (m.tiles x y)
  else
    none

/-- In-place mutation of the tile object at `(x, y)` (the source mutates the
`Tile` returned by `get_tile`; tiles are one distinct object per cell). -/
def GameMap.set_tile (m : GameMap) (x y : ℤ) (t : Tile) : GameMap :=
  { m with tiles := fun a b => if a = x ∧ b = y then t else m.tiles a b }

/-- map.py, `Map.create_prop(name, x, y)`: the prop is appended to
`self.props` *before* the origin tile is validated; on an invalid origin the
function returns with the list already mutated and no tile touched.
`get_prop_size` (renderer lookup, external per the spec) is passed in as
`sz`. -/
def GameMap.create_prop (sz : String → ℕ × ℕ) (m : GameMap) (name : String)
    (x y : ℤ) : GameMap :=
  let prop : Props := { name := name, x := x, y := y }
  let m1 := { m with props := m.props ++ [prop] }
  match m1.get_tile x y with
  | none => m1
  | some start_tile =>
    let m2 := m1.set_tile x y
      { start_tile with prop := some prop, main_prop_tile := true }
    (((List.range (sz name).1).product (List.range (sz name).2)).foldl
      (fun acc c =>
        if c.1 = 0 ∧ c.2 = 0 then acc
        else
          match acc.get_tile (x + c.1) (y + c.2) with
          | some tile => acc.set_tile (x + c.1) (y + c.2) { tile with prop := some prop }
          | none => acc)
      m2)

/-- map.py, `Map.remove_prop(prop)`: `self.props.remove(prop)` raises
`ValueError` when no list element equals `prop` (dataclass field equality);
otherwise the first equal element is removed and every footprint tile is
cleared. -/
def GameMap.remove_prop (sz : String → ℕ × ℕ) (m : GameMap) (prop : Props) :
    Except PyError GameMap :=
  if prop ∈ m.props then
    let m1 := { m with props := m.props.erase prop }
    Except.ok
      (((List.range (sz prop.name).1).product (List.range (sz prop.name).2)).foldl
        (fun acc c =>
          match acc.get_tile (prop.x + c.1) (prop.y + c.2) with
          | some tile =>
            acc.set_tile (prop.x + c.1) (prop.y + c.2)
              { tile with prop := none, main_prop_tile := false }
          | none => acc)
        m1)
  else
    Except.error PyError.valueError

/-- The body of the double loop in `Map.create_enclosure` at tile offset
`(i, j)`: mark the tile, then the `if/elif` chain assigning
`tile.enclosure_type` (corners first, then edges), flagging only the
origin tile as main. -/
def encTileUpdate (encProps : Props) (width height : ℤ) (i j : ℕ) (t : Tile) :
    Tile :=
  let t := { t with prop := some encProps, is_enc := true }
  if i = 0 ∧ j = 0 then
    { t with enclosure_type := some .TOP_LEFT, main_prop_tile := true }
  else if (i : ℤ) = width - 1 ∧ j = 0 then
    { t with enclosure_type := some .TOP_RIGHT }
  else if i = 0 ∧ (j : ℤ) = height - 1 then
    { t with enclosure_type := some .BOTTOM_LEFT }
  else if (i : ℤ) = width - 1 ∧ (j : ℤ) = height - 1 then
    { t with enclosure_type := some .BOTTOM_RIGHT }
  else if j = 0 then
    { t with enclosure_type := some .TOP }
  else if (j : ℤ) = height - 1 then
    { t with enclosure_type := some .BOTTOM }
  else if i = 0 then
    { t with enclosure_type := some .LEFT }
  else if (i : ℤ) = width - 1 then
    { t with enclosure_type := some .RIGHT }
  else
    t

/-- Body of a `for i: for j:` tile loop at offset `c = (i, j)` from
`(x, y)`: look the tile up, skip silently when out of bounds, otherwise
replace it by `f i j tile` (the source mutates the tile object in place). -/
def tileFoldStep (x y : ℤ) (f : ℕ → ℕ → Tile → Tile) (acc : GameMap)
    (c : ℕ × ℕ) : GameMap :=
  match acc.get_tile (x + c.1) (y + c.2) with
  | some tile => acc.set_tile (x + c.1) (y + c.2) (f c.1 c.2 tile)
  | none => acc

/-- map.py, `Map.create_enclosure(x, y, width, height)`. -/
def GameMap.create_enclosure (m : GameMap) (x y width height : ℤ) : GameMap :=
  let enclosure := Enclosure.init x y width height
  let m1 := { m with enclosures := m.enclosures ++ [enclosure] }
  ((List.range width.toNat).product (List.range height.toNat)).foldl
    (tileFoldStep x y (encTileUpdate enclosure.toProps width height)) m1

/-- main.py, `Game.calculate_income`: sums animal incomes over all enclosures
and prop incomes over all props; `ANIMAL_PRICES`/`PROP_PRICES` are embedded as
lookup functions returning `none` for a missing key (the `in` test). -/
def calculate_income (animal_prices prop_prices : String → Option ℚ)
    (m : GameMap) : ℚ :=
  let with_animals := m.enclosures.foldl
    (fun acc e => e.animals.foldl
      (fun acc2 a => acc2 + ((animal_prices a.species).getD 0)) acc) 0
  m.props.foldl (fun acc p => acc + ((prop_prices p.name).getD 0)) with_animals

/-- config.py: `BULLDOZER_BASE_COST = 300`. -/
def BULLDOZER_BASE_COST : ℤ := 300

/-- hud.py, `HUD.calculate_bulldozer_cost`: when `self.game` has a positive
`income_per_second` the source evaluates
`max(BULLDOZER_BASE_COST, int(min(income * 30, BULLDOZER_MAX_COST)))`, but
`BULLDOZER_MAX_COST` is defined nowhere in the repository, so that branch
raises `NameError`; otherwise it returns `BULLDOZER_BASE_COST`.  The
`hasattr` test is modelled by the `Option`. -/
def calculate_bulldozer_cost (income_per_second : Option ℚ) :
    Except PyError ℤ :=
  match income_per_second with
  | some income =>
    if income > 0 then Except.error PyError.nameError
    else Except.ok BULLDOZER_BASE_COST
  | none => Except.ok BULLDOZER_BASE_COST

/-- Oracle draws for one attempt of `Map.generate_random_props`: the
`random.choice` index and the two `randint` draws. -/
structure ScatterDraw where
  propIdx : ℕ := 0
  xDraw : ℕ := 0
  yDraw : ℕ := 0
deriving DecidableEq, Repr

/-- Model of `randint(a, b)` (both ends inclusive): `a` plus the draw reduced
modulo the size of the range. -/
def randint_model (a b : ℤ) (draw : ℕ) : ℤ :=
  a + (draw : ℤ) % (b - a + 1)

/-- Model of `random.choice(l)`: the draw reduced modulo the length indexes
the list (`choice` on an empty list raises; theorems assume `l ≠ []`). -/
def choice_model (l : List String) (draw : ℕ) : String :=
  l.getD (draw % l.length) ""

/-- The `can_place` double loop of `Map.generate_random_props`: every tile of
the footprint plus a 1-tile safety margin (source indices
`range(-1, prop_width + 1) × range(-1, prop_height + 1)`, embedded with the
shift `i - 1`) must be in bounds and have no occupying prop. -/
def can_place_at (m : GameMap) (x y : ℤ) (pw ph : ℕ) : Bool :=
  (List.range (pw + 2)).all fun i =>
    (List.range (ph + 2)).all fun j =>
      let check_x := x + i - 1
      let check_y := y + j - 1
      decide (0 ≤ check_x ∧ check_x < (m.width : ℤ) ∧ 0 ≤ check_y ∧
        check_y < (m.height : ℤ) ∧ (m.tiles check_x check_y).prop = none)

/-- One iteration body of the `while` loop of `Map.generate_random_props`
(everything between `attempts += 1` and the placement): returns the chosen
name and origin when this attempt places a prop, `none` when the attempt is
rejected (`continue` or failed `can_place`). -/
def scatter_step (sz : String → ℕ × ℕ) (available_props : List String)
    (m : GameMap) (d : ScatterDraw) : Option (String × ℤ × ℤ) :=
  let prop_name := choice_model available_props d.propIdx
  let psize := sz prop_name
  if psize = (0, 0) then none
  else
    let margin : ℤ := 2
    let max_x : ℤ := (m.width : ℤ) - psize.1 - 1 - 1
    let max_y : ℤ := (m.height : ℤ) - psize.2 - 1 - 1
    if max_x < margin ∨ max_y < margin then none
    else
      let x := randint_model margin max_x d.xDraw
      let y := randint_model margin max_y d.yDraw
      if can_place_at m x y psize.1 psize.2 then some (prop_name, x, y)
      else none

/-- The `while props_placed < num_props and attempts < max_attempts` loop of
`Map.generate_random_props`; one `ScatterDraw` is consumed per attempt (the
caller truncates the supply to `max_attempts`), and the final map together
with the loop counters `props_placed` and `attempts` is returned. -/
def scatter_loop (sz : String → ℕ × ℕ) (available_props : List String)
    (num_props : ℕ) : List ScatterDraw → ℕ → ℕ → GameMap → GameMap × ℕ × ℕ
  | [], props_placed, attempts, m => (m, props_placed, attempts)
  | d :: rest, props_placed, attempts, m =>
    if props_placed < num_props then
      match scatter_step sz available_props m d with
      | some (prop_name, x, y) =>
        scatter_loop sz available_props num_props rest (props_placed + 1)
          (attempts + 1) (m.create_prop sz prop_name x y)
      | none =>
        scatter_loop sz available_props num_props rest props_placed
          (attempts + 1) m
    else
      (m, props_placed, attempts)

/-- map.py, `Map.generate_random_props` line 253: the zero-income prop types
of `PROP_PRICES` (embedded as an association list of name and income). -/
def availableProps (prop_prices : List (String × ℚ)) : List String :=
  (prop_prices.filter fun nd => nd.2 = 0).map Prod.fst

/-- map.py, `Map.generate_random_props`: filters the zero-income prop types
out of `PROP_PRICES`, then runs the placement loop with the attempt budget
`max_attempts = num_props * 50` (`num_props` itself is the
`randint(400, 500)` draw, passed in). -/
def GameMap.generate_random_props (sz : String → ℕ × ℕ)
    (prop_prices : List (String × ℚ)) (draws : List ScatterDraw)
    (num_props : ℕ) (m : GameMap) : GameMap × ℕ × ℕ :=
  scatter_loop sz (availableProps prop_prices) num_props
    (draws.take (num_props * 50)) 0 0 m

/-- A small empty map used for concrete instances: all tiles default, no
props, no enclosures. -/
def emptyMap (w h : ℕ) : GameMap where
  width := w
  height := h
  tiles := fun _ _ => {}
  props := []
  enclosures := []

/-- A renderer size table assigning every prop type a 1×1 footprint. -/
def unitSize : String → ℕ × ℕ := fun _ => (1, 1)

/-- `stick_in_range` really clamps into `[min_value, max_value]` whenever the
interval is nonempty. -/
theorem stick_in_range_mem (value min_value max_value : ℚ)
    (h : min_value ≤ max_value) :
    min_value ≤ stick_in_range value min_value max_value ∧
      stick_in_range value min_value max_value ≤ max_value := by
  constructor
  · exact le_max_right _ _
  · exact max_le (min_le_right _ _) h

/-- C7: `calculate_bulldozer_cost` returns the base cost (300) when
`income_per_second` is absent or nonpositive; on any positive income the
source evaluates `BULLDOZER_MAX_COST`, a name defined nowhere in the
repository, and raises `NameError` instead of returning the documented
`max(base, int(min(income * 30, cap)))` value. -/
theorem C7_bulldozer_cost :
    calculate_bulldozer_cost none = Except.ok 300
    ∧ (∀ income : ℚ, income ≤ 0 →
        calculate_bulldozer_cost (some income) = Except.ok 300)
    ∧ (∀ income : ℚ, 0 < income →
        calculate_bulldozer_cost (some income) = Except.error PyError.nameError) := by
  refine ⟨rfl, ?_, ?_⟩ <;> intro income h <;>
    simp [calculate_bulldozer_cost, BULLDOZER_BASE_COST, not_lt.mpr, h, not_lt_of_le]

/-- Witness for C7 at the concrete income 10 per second. -/
theorem C7_bulldozer_cost_witness :
    (0 : ℚ) < 10 ∧
      calculate_bulldozer_cost (some 10) = Except.error PyError.nameError :=
  ⟨by norm_num, C7_bulldozer_cost.2.2 10 (by norm_num)⟩

/-- C6 counterexample: removing a prop that is not in the props list is not a
silent no-op — `self.props.remove(prop)` raises `ValueError` (here on an
empty 5×5 map). -/
theorem C6_counterexample :
    GameMap.remove_prop unitSize (emptyMap 5 5) { name := "rock1", x := 2, y := 2 }
      = Except.error PyError.valueError := by
  rfl

/-- C6 amended: `remove_prop` on a prop absent from the props list raises
`ValueError`; the exception is raised by the very first statement, so the
props list and every tile are left unchanged (the error result carries no
mutated map). -/
theorem C6_remove_absent_raises (sz : String → ℕ × ℕ) (m : GameMap)
    (prop : Props) (h : prop ∉ m.props) :
    GameMap.remove_prop sz m prop = Except.error PyError.valueError := by
  unfold GameMap.remove_prop
  rw [if_neg h]

/-- Witness for the amended C6 at a concrete absent prop. -/
theorem C6_remove_absent_raises_witness :
    ({ name := "rock1", x := 2, y := 2 : Props} ∉ (emptyMap 5 5).props)
    ∧ GameMap.remove_prop unitSize (emptyMap 5 5) { name := "rock1", x := 2, y := 2 }
        = Except.error PyError.valueError :=
  ⟨by simp [emptyMap], C6_remove_absent_raises unitSize (emptyMap 5 5) _ (by simp [emptyMap])⟩

/-- `add_animal` never grows the roster beyond `max_animals` and never
changes `max_animals`. -/
theorem add_animal_le (e : Enclosure) (a : Animal)
    (h : (e.animals.length : ℤ) ≤ e.max_animals) :
    ((e.add_animal a).animals.length : ℤ) ≤ (e.add_animal a).max_animals
    ∧ (e.add_animal a).max_animals = e.max_animals := by
  unfold Enclosure.add_animal
  split
  · rename_i hlt
    refine ⟨?_, rfl⟩
    simp only [List.length_append, List.length_cons, List.length_nil]
    push_cast
    omega
  · exact ⟨h, rfl⟩

/-- Folding any list of `add_animal` calls preserves the capacity bound and
the capacity itself. -/
theorem foldl_add_animal_le (l : List Animal) (e : Enclosure)
    (h : (e.animals.length : ℤ) ≤ e.max_animals) :
    ((l.foldl Enclosure.add_animal e).animals.length : ℤ)
        ≤ (l.foldl Enclosure.add_animal e).max_animals
    ∧ (l.foldl Enclosure.add_animal e).max_animals = e.max_animals := by
  induction l generalizing e with
  | nil => exact ⟨h, rfl⟩
  | cons a rest ih =>
    obtain ⟨h1, h2⟩ := add_animal_le e a h
    obtain ⟨h3, h4⟩ := ih (e.add_animal a) h1
    exact ⟨h3, h4.trans h2⟩

/-- C3: `max_animals` is the floor of `(width-1)*(height-1)/4`; the roster
never exceeds it over any sequence of `add_animal` calls starting from a
fresh enclosure; a full enclosure rejects adds, leaving the list unchanged;
and a 5×5 enclosure caps at 4 animals, the 5th add being a no-op. -/
theorem C3_capacity (x y width height : ℤ) (to_add : List Animal)
    (a1 a2 a3 a4 a5 : Animal) (hw : 1 ≤ width) (hh : 1 ≤ height) :
    (Enclosure.init x y width height).max_animals
        = Int.fdiv ((width - 1) * (height - 1)) 4
    ∧ ((to_add.foldl Enclosure.add_animal (Enclosure.init x y width height)).animals.length : ℤ)
        ≤ (Enclosure.init x y width height).max_animals
    ∧ (∀ e : Enclosure, ∀ a : Animal,
        e.max_animals ≤ (e.animals.length : ℤ) → (e.add_animal a).animals = e.animals)
    ∧ (Enclosure.init x y 5 5).max_animals = 4
    ∧ ((((((Enclosure.init x y 5 5).add_animal a1).add_animal a2).add_animal
          a3).add_animal a4).add_animal a5).animals = [a1, a2, a3, a4] := by
  have hbase : ((Enclosure.init x y width height).animals.length : ℤ)
      ≤ (Enclosure.init x y width height).max_animals := by
    show ((List.length [] : ℤ)) ≤ Int.fdiv ((width - 1) * (height - 1)) 4
    have : (0 : ℤ) ≤ (width - 1) * (height - 1) := mul_nonneg (by omega) (by omega)
    simp only [List.length_nil, Int.ofNat_zero]
    exact Int.fdiv_nonneg this (by norm_num)
  refine ⟨rfl, ?_, ?_, ?_, ?_⟩
  · obtain ⟨h1, h2⟩ := foldl_add_animal_le to_add _ hbase
    rw [h2] at h1
    exact h1
  · intro e a hfull
    unfold Enclosure.add_animal
    rw [if_neg (not_lt.mpr hfull)]
  · rfl
  · simp [Enclosure.add_animal, Enclosure.init, Int.fdiv]

/-- Witness for C3 on a concrete 5×5 enclosure. -/
theorem C3_capacity_witness :
    (1 : ℤ) ≤ 5 ∧ (Enclosure.init 0 0 5 5).max_animals = 4 :=
  ⟨by norm_num,
    (C3_capacity 0 0 5 5 [] (Animal.init "cow" 0 0 0) (Animal.init "cow" 0 0 0)
      (Animal.init "cow" 0 0 0) (Animal.init "cow" 0 0 0) (Animal.init "cow" 0 0 0)
      (by norm_num) (by norm_num)).2.2.2.1⟩

/-- The early-return branch of the idle handling (staying idle) only advances
`idle_timer`. -/
theorem idlePhase_inl (st st1 : Animal) (dt : ℚ) (b : Bounds) (o : MoveOracle)
    (h : Animal.idlePhase st dt b o = .inl st1) :
    st1 = { st with idle_timer := st.idle_timer + dt } := by
  unfold Animal.idlePhase at h
  dsimp only at h
  repeat' split at h
  all_goals simp_all

/-- The fall-through of the idle handling leaves position, direction, stats
and collision radius at the tick's starting values. -/
theorem idlePhase_inr (st st1 : Animal) (dt : ℚ) (b : Bounds) (o : MoveOracle)
    (h : Animal.idlePhase st dt b o = .inr st1) :
    st1.x = st.x ∧ st1.y = st.y ∧ st1.direction = st.direction ∧
    st1.hunger = st.hunger ∧ st1.thirst = st.thirst ∧
    st1.happiness = st.happiness ∧ st1.health = st.health ∧
    st1.collision_radius = st.collision_radius := by
  unfold Animal.idlePhase at h
  dsimp only at h
  repeat' split at h
  all_goals simp_all
  all_goals (obtain rfl := h.symm; simp)

/-- The early return of the retargeting step (entering idle) keeps position,
direction, stats and collision radius. -/
theorem retargetPhase_inl (st st1 : Animal) (dt : ℚ) (b : Bounds)
    (o : MoveOracle) (h : Animal.retargetPhase st dt b o = .inl st1) :
    st1.x = st.x ∧ st1.y = st.y ∧ st1.direction = st.direction ∧
    st1.hunger = st.hunger ∧ st1.thirst = st.thirst ∧
    st1.happiness = st.happiness ∧ st1.health = st.health ∧
    st1.collision_radius = st.collision_radius := by
  unfold Animal.retargetPhase at h
  dsimp only at h
  repeat' split at h
  all_goals simp_all
  all_goals (obtain rfl := h.symm; simp)

/-- The fall-through of the retargeting step keeps position, direction, stats
and collision radius. -/
theorem retargetPhase_inr (st st1 : Animal) (dt : ℚ) (b : Bounds)
    (o : MoveOracle) (h : Animal.retargetPhase st dt b o = .inr st1) :
    st1.x = st.x ∧ st1.y = st.y ∧ st1.direction = st.direction ∧
    st1.hunger = st.hunger ∧ st1.thirst = st.thirst ∧
    st1.happiness = st.happiness ∧ st1.health = st.health ∧
    st1.collision_radius = st.collision_radius := by
  unfold Animal.retargetPhase at h
  dsimp only at h
  repeat' split at h
  all_goals simp_all
  all_goals (obtain rfl := h.symm; simp)

/-- The steering stage never changes the four stats (it moves, turns or goes
idle). -/
theorem steerPhase_stats (st : Animal) (dt : ℚ) (b : Bounds)
    (others : List Animal) (o : MoveOracle) :
    (Animal.steerPhase st dt b others o).hunger = st.hunger ∧
    (Animal.steerPhase st dt b others o).thirst = st.thirst ∧
    (Animal.steerPhase st dt b others o).happiness = st.happiness ∧
    (Animal.steerPhase st dt b others o).health = st.health := by
  unfold Animal.steerPhase
  dsimp only
  repeat' split
  all_goals simp

/-- `random_movement` never changes the four stats. -/
theorem random_movement_stats (st : Animal) (dt : ℚ) (b : Bounds)
    (others : List Animal) (o : MoveOracle) :
    (Animal.random_movement st dt b others o).hunger = st.hunger ∧
    (Animal.random_movement st dt b others o).thirst = st.thirst ∧
    (Animal.random_movement st dt b others o).happiness = st.happiness ∧
    (Animal.random_movement st dt b others o).health = st.health := by
  unfold Animal.random_movement
  cases h1 : Animal.idlePhase st dt b o with
  | inl fin =>
    obtain rfl := idlePhase_inl st fin dt b o h1
    simp
  | inr st1 =>
    obtain ⟨-, -, -, hh1, ht1, hp1, hl1, -⟩ := idlePhase_inr st st1 dt b o h1
    cases h2 : Animal.retargetPhase st1 dt b o with
    | inl fin =>
      obtain ⟨-, -, -, hh2, ht2, hp2, hl2, -⟩ := retargetPhase_inl st1 fin dt b o h2
      simp_all
    | inr st2 =>
      obtain ⟨-, -, -, hh2, ht2, hp2, hl2, -⟩ := retargetPhase_inr st1 st2 dt b o h2
      obtain ⟨hh3, ht3, hp3, hl3⟩ := steerPhase_stats st2 dt b others o
      simp_all

/-- The animation bookkeeping never changes stats or position. -/
theorem animPhase_frame (st : Animal) (dt : ℚ) :
    (Animal.animPhase st dt).hunger = st.hunger ∧
    (Animal.animPhase st dt).thirst = st.thirst ∧
    (Animal.animPhase st dt).happiness = st.happiness ∧
    (Animal.animPhase st dt).health = st.health ∧
    (Animal.animPhase st dt).x = st.x ∧
    (Animal.animPhase st dt).y = st.y := by
  unfold Animal.animPhase
  dsimp only
  repeat' split
  all_goals simp

/-- The decay stage implements exactly the documented decay formulas and
leaves position untouched. -/
theorem decayPhase_spec (st : Animal) (dt : ℚ) :
    (Animal.decayPhase st dt).hunger = max 0 (st.hunger - 1/10 * dt) ∧
    (Animal.decayPhase st dt).thirst = max 0 (st.thirst - 1/10 * dt) ∧
    (Animal.decayPhase st dt).happiness = max 0 (st.happiness - 1/20 * dt) ∧
    (Animal.decayPhase st dt).health =
      (if max 0 (st.hunger - 1/10 * dt) = 0 ∨ max 0 (st.thirst - 1/10 * dt) = 0
        then max 0 (st.health - 1/5 * dt) else st.health) ∧
    (Animal.decayPhase st dt).x = st.x ∧
    (Animal.decayPhase st dt).y = st.y := by
  unfold Animal.decayPhase
  dsimp only
  repeat' split
  all_goals simp_all

/-- `Animal.update` applies exactly the decay formulas to the four stats,
whatever the boundaries, other animals and oracle are. -/
theorem update_stats (st : Animal) (dt : ℚ) (eb : Option Bounds)
    (others : List Animal) (o : MoveOracle) :
    (Animal.update st dt eb others o).hunger = max 0 (st.hunger - 1/10 * dt) ∧
    (Animal.update st dt eb others o).thirst = max 0 (st.thirst - 1/10 * dt) ∧
    (Animal.update st dt eb others o).happiness = max 0 (st.happiness - 1/20 * dt) ∧
    (Animal.update st dt eb others o).health =
      (if max 0 (st.hunger - 1/10 * dt) = 0 ∨ max 0 (st.thirst - 1/10 * dt) = 0
        then max 0 (st.health - 1/5 * dt) else st.health) := by
  unfold Animal.update
  obtain ⟨d1, d2, d3, d4, -, -⟩ := decayPhase_spec st dt
  cases eb with
  | none =>
    obtain ⟨a1, a2, a3, a4, -, -⟩ := animPhase_frame (Animal.decayPhase st dt) dt
    simp_all
  | some b =>
    obtain ⟨m1, m2, m3, m4⟩ :=
      random_movement_stats (Animal.decayPhase st dt) dt b others o
    obtain ⟨a1, a2, a3, a4, -, -⟩ :=
      animPhase_frame (Animal.random_movement (Animal.decayPhase st dt) dt b others o) dt
    simp_all

/-- C4: the per-tick decay formulas (with health loss exactly when post-decay
hunger or thirst is zero), the `[0, 100]` stat range preservation for
`dt ≥ 0`, and the care operations (`feed`/`give_water`/`play`/`heal`) adding
a nonnegative amount clamped to 100 — in particular `feed` at hunger 95 with
amount 1000 yields 100. -/
theorem C4_stats (st : Animal) (dt amount : ℚ) (eb : Option Bounds)
    (others : List Animal) (o : MoveOracle)
    (hdt : 0 ≤ dt) (hamount : 0 ≤ amount)
    (hh : 0 ≤ st.hunger ∧ st.hunger ≤ 100)
    (ht : 0 ≤ st.thirst ∧ st.thirst ≤ 100)
    (hp : 0 ≤ st.happiness ∧ st.happiness ≤ 100)
    (hl : 0 ≤ st.health ∧ st.health ≤ 100) :
    (Animal.update st dt eb others o).hunger = max 0 (st.hunger - 1/10 * dt)
    ∧ (Animal.update st dt eb others o).thirst = max 0 (st.thirst - 1/10 * dt)
    ∧ (Animal.update st dt eb others o).happiness = max 0 (st.happiness - 1/20 * dt)
    ∧ (Animal.update st dt eb others o).health =
        (if max 0 (st.hunger - 1/10 * dt) = 0 ∨ max 0 (st.thirst - 1/10 * dt) = 0
          then max 0 (st.health - 1/5 * dt) else st.health)
    ∧ (0 ≤ (Animal.update st dt eb others o).hunger
        ∧ (Animal.update st dt eb others o).hunger ≤ 100)
    ∧ (0 ≤ (Animal.update st dt eb others o).thirst
        ∧ (Animal.update st dt eb others o).thirst ≤ 100)
    ∧ (0 ≤ (Animal.update st dt eb others o).happiness
        ∧ (Animal.update st dt eb others o).happiness ≤ 100)
    ∧ (0 ≤ (Animal.update st dt eb others o).health
        ∧ (Animal.update st dt eb others o).health ≤ 100)
    ∧ (st.feed amount).hunger = min 100 (st.hunger + amount)
    ∧ (0 ≤ (st.feed amount).hunger ∧ (st.feed amount).hunger ≤ 100)
    ∧ (st.give_water amount).thirst = min 100 (st.thirst + amount)
    ∧ (0 ≤ (st.give_water amount).thirst ∧ (st.give_water amount).thirst ≤ 100)
    ∧ (st.play amount).happiness = min 100 (st.happiness + amount)
    ∧ (0 ≤ (st.play amount).happiness ∧ (st.play amount).happiness ≤ 100)
    ∧ (st.heal amount).health = min 100 (st.health + amount)
    ∧ (0 ≤ (st.heal amount).health ∧ (st.heal amount).health ≤ 100)
    ∧ (st.hunger = 95 → (st.feed 1000).hunger = 100) := by
  obtain ⟨u1, u2, u3, u4⟩ := update_stats st dt eb others o
  refine ⟨u1, u2, u3, u4, ?_, ?_, ?_, ?_, ?_, ?_, ?_, ?_, ?_, ?_, ?_, ?_, ?_⟩
  · rw [u1]
    constructor
    · exact le_max_left 0 _
    · exact max_le (by norm_num) (by linarith [hh.2])
  · rw [u2]
    constructor
    · exact le_max_left 0 _
    · exact max_le (by norm_num) (by linarith [ht.2])
  · rw [u3]
    constructor
    · exact le_max_left 0 _
    · exact max_le (by norm_num) (by linarith [hp.2])
  · rw [u4]
    split
    · constructor
      · exact le_max_left 0 _
      · exact max_le (by norm_num) (by linarith [hl.2])
    · exact hl
  · rfl
  · exact ⟨le_min (by norm_num) (by linarith [hh.1]), min_le_left _ _⟩
  · rfl
  · exact ⟨le_min (by norm_num) (by linarith [ht.1]), min_le_left _ _⟩
  · rfl
  · exact ⟨le_min (by norm_num) (by linarith [hp.1]), min_le_left _ _⟩
  · rfl
  · exact ⟨le_min (by norm_num) (by linarith [hl.1]), min_le_left _ _⟩
  · intro h95
    show min 100 (st.hunger + 1000) = 100
    rw [h95]
    norm_num

/-- Witness for C4 at a concrete animal with hunger 95 and a concrete tick. -/
theorem C4_stats_witness :
    ((0 : ℚ) ≤ 1/60 ∧ (0 : ℚ) ≤ 1000
      ∧ (({ Animal.init "cow" 3 3 0 with hunger := 95 } : Animal).feed 1000).hunger = 100)
    ∧ (Animal.update { Animal.init "cow" 3 3 0 with hunger := 95 } (1/60) none [] {}).hunger
        = max 0 (95 - 1/10 * (1/60)) := by
  have h := C4_stats { Animal.init "cow" 3 3 0 with hunger := 95 } (1/60) 1000 none [] {}
    (by norm_num) (by norm_num)
    (by constructor <;> norm_num [Animal.init])
    (by constructor <;> norm_num [Animal.init])
    (by constructor <;> norm_num [Animal.init])
    (by constructor <;> norm_num [Animal.init])
  exact ⟨⟨by norm_num, by norm_num,
    h.2.2.2.2.2.2.2.2.2.2.2.2.2.2.2.2 rfl⟩, h.1⟩

/-- Containment of an animal's position in a boundary rectangle
(inclusive). -/
def inRect (b : Bounds) (a : Animal) : Prop :=
  b.min_x ≤ a.x ∧ a.x ≤ b.max_x ∧ b.min_y ≤ a.y ∧ a.y ≤ b.max_y

instance (b : Bounds) (a : Animal) : Decidable (inRect b a) := by
  unfold inRect
  exact inferInstance

/-- The steering stage keeps an animal inside a nonempty boundary rectangle:
it either leaves the position alone or commits a position clamped by
`stick_in_range`. -/
theorem steerPhase_inRect (st : Animal) (dt : ℚ) (b : Bounds)
    (others : List Animal) (o : MoveOracle)
    (hbx : b.min_x ≤ b.max_x) (hby : b.min_y ≤ b.max_y)
    (h : inRect b st) :
    inRect b (Animal.steerPhase st dt b others o) := by
  obtain ⟨sx1, sx2⟩ :=
    stick_in_range_mem (st.x + Animal.steer_dx st dt o) b.min_x b.max_x hbx
  obtain ⟨sy1, sy2⟩ :=
    stick_in_range_mem (st.y + Animal.steer_dy st dt o) b.min_y b.max_y hby
  unfold Animal.steerPhase
  dsimp only
  repeat' split
  all_goals simp_all [inRect]

/-- `random_movement` keeps an animal inside a nonempty boundary
rectangle. -/
theorem random_movement_inRect (st : Animal) (dt : ℚ) (b : Bounds)
    (others : List Animal) (o : MoveOracle)
    (hbx : b.min_x ≤ b.max_x) (hby : b.min_y ≤ b.max_y)
    (h : inRect b st) :
    inRect b (Animal.random_movement st dt b others o) := by
  unfold Animal.random_movement
  cases h1 : Animal.idlePhase st dt b o with
  | inl fin =>
    obtain rfl := idlePhase_inl st fin dt b o h1
    simpa [inRect] using h
  | inr st1 =>
    obtain ⟨e1, e2, -, -, -, -, -, -⟩ := idlePhase_inr st st1 dt b o h1
    have h1r : inRect b st1 := by simp_all [inRect]
    cases h2 : Animal.retargetPhase st1 dt b o with
    | inl fin =>
      obtain ⟨f1, f2, -, -, -, -, -, -⟩ := retargetPhase_inl st1 fin dt b o h2
      simp_all [inRect]
    | inr st2 =>
      obtain ⟨f1, f2, -, -, -, -, -, -⟩ := retargetPhase_inr st1 st2 dt b o h2
      have h2r : inRect b st2 := by simp_all [inRect]
      have hfinal := steerPhase_inRect st2 dt b others o hbx hby h2r
      simpa [h2] using hfinal

/-- A full `Animal.update` against a nonempty boundary rectangle keeps the
animal inside it. -/
theorem update_inRect (st : Animal) (dt : ℚ) (b : Bounds)
    (others : List Animal) (o : MoveOracle)
    (hbx : b.min_x ≤ b.max_x) (hby : b.min_y ≤ b.max_y)
    (h : inRect b st) :
    inRect b (Animal.update st dt (some b) others o) := by
  unfold Animal.update
  obtain ⟨-, -, -, -, d5, d6⟩ := decayPhase_spec st dt
  have hdec : inRect b (Animal.decayPhase st dt) := by simp_all [inRect]
  have hmove := random_movement_inRect (Animal.decayPhase st dt) dt b others o
    hbx hby hdec
  obtain ⟨-, -, -, -, a5, a6⟩ :=
    animPhase_frame (Animal.random_movement (Animal.decayPhase st dt) dt b others o) dt
  simp_all [inRect]

/-- The sequential per-animal update loop of `Enclosure.update_animals`
preserves containment of every animal in the boundary rectangle. -/
theorem updateAnimalsLoop_inRect (dt : ℚ) (b : Bounds) (os : List MoveOracle)
    (hbx : b.min_x ≤ b.max_x) (hby : b.min_y ≤ b.max_y) :
    ∀ (fuel k : ℕ) (animals : List Animal),
      (∀ a ∈ animals, inRect b a) →
      ∀ a ∈ updateAnimalsLoop dt b os fuel k animals, inRect b a := by
  intro fuel
  induction fuel with
  | zero =>
    intro k animals hall a ha
    exact hall a ha
  | succ n ih =>
    intro k animals hall a ha
    unfold updateAnimalsLoop at ha
    cases hget : animals[k]? with
    | none =>
      rw [hget] at ha
      exact hall a ha
    | some animal =>
      rw [hget] at ha
      refine ih (k + 1) _ ?_ a ha
      intro a2 ha2
      rcases List.mem_or_eq_of_mem_set ha2 with hmem | rfl
      · exact hall a2 hmem
      · obtain ⟨hk, hval⟩ := List.getElem?_eq_some.mp hget
        have hanimal : animal ∈ animals := hval ▸ List.getElem_mem hk
        exact update_inRect animal dt b _ _ hbx hby (hall animal hanimal)

/-- One `Enclosure.update_animals` call preserves containment in the interior
rectangle, and does not change the enclosure's geometry. -/
theorem update_animals_inRect (e : Enclosure) (dt : ℚ) (os : List MoveOracle)
    (hbx : e.interior.min_x ≤ e.interior.max_x)
    (hby : e.interior.min_y ≤ e.interior.max_y)
    (hall : ∀ a ∈ e.animals, inRect e.interior a) :
    ∀ a ∈ (e.update_animals dt os).animals, inRect e.interior a := by
  intro a ha
  unfold Enclosure.update_animals at ha
  exact updateAnimalsLoop_inRect dt e.interior os hbx hby _ 0 e.animals hall a ha

/-- C1: with the interior rectangle
`(x + 1, y + 1, x + width - 1, y + height - 1)` nonempty (width, height ≥ 2)
and every animal starting inside it, any number of `update_animals` ticks
keeps every animal inside it — committed moves are clamped into the
rectangle and all other transitions leave positions unchanged. -/
theorem C1_boundary_confinement (e : Enclosure)
    (ticks : List (ℚ × List MoveOracle))
    (hw : 2 ≤ e.width) (hh : 2 ≤ e.height)
    (hinit : ∀ a ∈ e.animals, inRect e.interior a) :
    ∀ a ∈ (Enclosure.iterate_updates ticks e).animals, inRect e.interior a := by
  induction ticks generalizing e with
  | nil => exact hinit
  | cons t rest ih =>
    obtain ⟨dt, os⟩ := t
    have hbx : e.interior.min_x ≤ e.interior.max_x := by
      unfold Enclosure.interior
      have : ((2 : ℤ) : ℚ) ≤ (e.width : ℚ) := by exact_mod_cast hw
      push_cast at this ⊢
      linarith
    have hby : e.interior.min_y ≤ e.interior.max_y := by
      unfold Enclosure.interior
      have : ((2 : ℤ) : ℚ) ≤ (e.height : ℚ) := by exact_mod_cast hh
      push_cast at this ⊢
      linarith
    have hstep := update_animals_inRect e dt os hbx hby hinit
    have hsame : (e.update_animals dt os).interior = e.interior := rfl
    have hw2 : 2 ≤ (e.update_animals dt os).width := hw
    have hh2 : 2 ≤ (e.update_animals dt os).height := hh
    have := ih (e.update_animals dt os) hw2 hh2 (by rw [hsame]; exact hstep)
    rw [hsame] at this
    exact this

/-- Witness for C1: a 5×5 enclosure at (10, 10) with one animal at its
centre, run for two frames. -/
theorem C1_boundary_confinement_witness :
    ((2 : ℤ) ≤ 5)
    ∧ (∀ a ∈ ({ Enclosure.init 10 10 5 5 with
          animals := [Animal.init "cow" (25/2) (25/2) 0] } : Enclosure).animals,
        inRect ({ Enclosure.init 10 10 5 5 with
          animals := [Animal.init "cow" (25/2) (25/2) 0] } : Enclosure).interior a)
    ∧ (∀ a ∈ (Enclosure.iterate_updates [(1/60, [{}]), (1/60, [{}])]
          { Enclosure.init 10 10 5 5 with
            animals := [Animal.init "cow" (25/2) (25/2) 0] }).animals,
        inRect ({ Enclosure.init 10 10 5 5 with
          animals := [Animal.init "cow" (25/2) (25/2) 0] } : Enclosure).interior a) := by
  have hinit : ∀ a ∈ ({ Enclosure.init 10 10 5 5 with
      animals := [Animal.init "cow" (25/2) (25/2) 0] } : Enclosure).animals,
      inRect ({ Enclosure.init 10 10 5 5 with
        animals := [Animal.init "cow" (25/2) (25/2) 0] } : Enclosure).interior a := by
    intro a ha
    simp only [List.mem_singleton] at ha
    subst ha
    constructor
    · norm_num [Enclosure.interior, Enclosure.init, Animal.init]
    constructor
    · norm_num [Enclosure.interior, Enclosure.init, Animal.init]
    constructor
    · norm_num [Enclosure.interior, Enclosure.init, Animal.init]
    · norm_num [Enclosure.interior, Enclosure.init, Animal.init]
  exact ⟨by decide, hinit,
    C1_boundary_confinement _ _ (by decide) (by decide) hinit⟩

/-- C2: in a tick that reaches the steering stage (both early phases fall
through, the target is at least 0.1 tiles away), if the clamped candidate
position passes the collision check the move commits to exactly that
position, which is at squared distance at least
`(collision_radius_self + collision_radius_other)^2` from every other
animal; if the check fails, position and facing are unchanged from the start
of the tick and the animal goes idle with a duration drawn uniformly from
`[0.5, 1.5]` seconds. -/
theorem C2_collision_nonoverlap (st st1 st2 : Animal) (dt : ℚ) (b : Bounds)
    (others : List Animal) (o : MoveOracle)
    (h1 : Animal.idlePhase st dt b o = .inr st1)
    (h2 : Animal.retargetPhase st1 dt b o = .inr st2)
    (hfar : ¬ ((st2.target_x - st2.x) ^ 2 + (st2.target_y - st2.y) ^ 2 < (1/10) ^ 2))
    (hu0 : 0 ≤ o.uColIdleDur) (hu1 : o.uColIdleDur ≤ 1) :
    (Animal.check_collision_with_others st2
        (stick_in_range (st2.x + Animal.steer_dx st2 dt o) b.min_x b.max_x)
        (stick_in_range (st2.y + Animal.steer_dy st2 dt o) b.min_y b.max_y)
        others = false →
      (Animal.random_movement st dt b others o).x
          = stick_in_range (st2.x + Animal.steer_dx st2 dt o) b.min_x b.max_x
      ∧ (Animal.random_movement st dt b others o).y
          = stick_in_range (st2.y + Animal.steer_dy st2 dt o) b.min_y b.max_y
      ∧ ∀ other ∈ others,
          (st2.collision_radius + other.collision_radius) ^ 2
            ≤ (stick_in_range (st2.x + Animal.steer_dx st2 dt o) b.min_x b.max_x
                - other.x) ^ 2
              + (stick_in_range (st2.y + Animal.steer_dy st2 dt o) b.min_y b.max_y
                - other.y) ^ 2)
    ∧ (Animal.check_collision_with_others st2
        (stick_in_range (st2.x + Animal.steer_dx st2 dt o) b.min_x b.max_x)
        (stick_in_range (st2.y + Animal.steer_dy st2 dt o) b.min_y b.max_y)
        others = true →
      (Animal.random_movement st dt b others o).x = st.x
      ∧ (Animal.random_movement st dt b others o).y = st.y
      ∧ (Animal.random_movement st dt b others o).direction = st.direction
      ∧ (Animal.random_movement st dt b others o).is_idle = true
      ∧ 1/2 ≤ (Animal.random_movement st dt b others o).idle_duration
      ∧ (Animal.random_movement st dt b others o).idle_duration ≤ 3/2) := by
  obtain ⟨e1, e2, e3, -, -, -, -, ecr⟩ := idlePhase_inr st st1 dt b o h1
  obtain ⟨f1, f2, f3, -, -, -, -, fcr⟩ := retargetPhase_inr st1 st2 dt b o h2
  have hred : Animal.random_movement st dt b others o
      = Animal.steerPhase st2 dt b others o := by
    unfold Animal.random_movement
    rw [h1]
    dsimp only
    rw [h2]
  have hpos : (0 : ℚ) < (st2.target_x - st2.x) ^ 2 + (st2.target_y - st2.y) ^ 2 :=
    lt_of_lt_of_le (by norm_num) (not_lt.mp hfar)
  rw [hred]
  unfold Animal.steerPhase
  dsimp only
  rw [if_neg hfar, if_pos hpos]
  constructor
  · intro hc
    rw [hc]
    simp only [Bool.false_eq_true, not_false_eq_true, if_pos]
    unfold Animal.check_collision_with_others at hc
    rw [List.any_eq_false] at hc
    refine ⟨?_, ?_, ?_⟩
    · repeat' split
      all_goals simp
    · repeat' split
      all_goals simp
    · intro other hother
      have := hc other hother
      simp only [decide_eq_true_eq] at this
      linarith [not_lt.mp this]
  · intro hc
    rw [hc]
    simp only [not_true_eq_false, if_neg, Bool.true_eq_false, reduceIte]
    refine ⟨by simp_all, by simp_all, by simp_all, by simp, ?_, ?_⟩
    all_goals simp only [uniform]
    all_goals linarith

/-- C8: on a committed move, the facing becomes EAST/WEST (by the sign of the
x displacement) exactly when `|dx| > |dy|` strictly, and SOUTH/NORTH (by the
sign of the y displacement) otherwise — a tie `|dx| = |dy|` yields a
vertical facing. -/
theorem C8_facing_direction (st st1 st2 : Animal) (dt : ℚ) (b : Bounds)
    (others : List Animal) (o : MoveOracle)
    (h1 : Animal.idlePhase st dt b o = .inr st1)
    (h2 : Animal.retargetPhase st1 dt b o = .inr st2)
    (hfar : ¬ ((st2.target_x - st2.x) ^ 2 + (st2.target_y - st2.y) ^ 2 < (1/10) ^ 2))
    (hnc : Animal.check_collision_with_others st2
        (stick_in_range (st2.x + Animal.steer_dx st2 dt o) b.min_x b.max_x)
        (stick_in_range (st2.y + Animal.steer_dy st2 dt o) b.min_y b.max_y)
        others = false) :
    ((Animal.random_movement st dt b others o).direction = .EAST
        ↔ (|Animal.steer_dx st2 dt o| > |Animal.steer_dy st2 dt o|
            ∧ Animal.steer_dx st2 dt o > 0))
    ∧ ((Animal.random_movement st dt b others o).direction = .WEST
        ↔ (|Animal.steer_dx st2 dt o| > |Animal.steer_dy st2 dt o|
            ∧ ¬ Animal.steer_dx st2 dt o > 0))
    ∧ ((Animal.random_movement st dt b others o).direction = .SOUTH
        ↔ (¬ |Animal.steer_dx st2 dt o| > |Animal.steer_dy st2 dt o|
            ∧ Animal.steer_dy st2 dt o > 0))
    ∧ ((Animal.random_movement st dt b others o).direction = .NORTH
        ↔ (¬ |Animal.steer_dx st2 dt o| > |Animal.steer_dy st2 dt o|
            ∧ ¬ Animal.steer_dy st2 dt o > 0)) := by
  have hred : Animal.random_movement st dt b others o
      = Animal.steerPhase st2 dt b others o := by
    unfold Animal.random_movement
    rw [h1]
    dsimp only
    rw [h2]
  have hpos : (0 : ℚ) < (st2.target_x - st2.x) ^ 2 + (st2.target_y - st2.y) ^ 2 :=
    lt_of_lt_of_le (by norm_num) (not_lt.mp hfar)
  rw [hred]
  unfold Animal.steerPhase
  dsimp only
  rw [if_neg hfar, if_pos hpos, hnc]
  simp only [Bool.false_eq_true, not_false_eq_true, if_pos]
  repeat' split
  all_goals simp_all

/-- Concrete walking animal at (50, 50) targeting (53, 54) — a 3-4-5
triangle, so the float distance is exactly 5. -/
def wAnimal : Animal :=
  { Animal.init "cow" 50 50 0 with target_x := 53, target_y := 54 }

/-- `wAnimal` after the retarget phase of a 1-second tick (no retarget: the
move timer 1 stays below the move interval 1.5). -/
def wAnimal2 : Animal :=
  { wAnimal with move_timer := 1 }

/-- A wide boundary rectangle for the witnesses. -/
def wBounds : Bounds := ⟨0, 0, 100, 100⟩

/-- Witness oracle: the movement-branch distance is 5 (exact square root of
3² + 4²); all other draws at their defaults. -/
def wOracle : MoveOracle := { dist := 5 }

/-- Another animal sitting exactly on the mover's candidate position
(50 + 12/25, 50 + 16/25). -/
def wOther : Animal := Animal.init "sheep" (50 + 12/25) (50 + 16/25) 0

/-- Witness for C2: the concrete mover's candidate move collides with
`wOther` and is rejected — position and facing unchanged, idle for 0.5 s
(the default collision draw 0). -/
theorem C2_collision_nonoverlap_witness :
    Animal.idlePhase wAnimal 1 wBounds wOracle = .inr wAnimal
    ∧ Animal.retargetPhase wAnimal 1 wBounds wOracle = .inr wAnimal2
    ∧ ¬ ((wAnimal2.target_x - wAnimal2.x) ^ 2
          + (wAnimal2.target_y - wAnimal2.y) ^ 2 < (1/10) ^ 2)
    ∧ Animal.check_collision_with_others wAnimal2
        (stick_in_range (wAnimal2.x + Animal.steer_dx wAnimal2 1 wOracle)
          wBounds.min_x wBounds.max_x)
        (stick_in_range (wAnimal2.y + Animal.steer_dy wAnimal2 1 wOracle)
          wBounds.min_y wBounds.max_y) [wOther] = true
    ∧ ((Animal.random_movement wAnimal 1 wBounds [wOther] wOracle).x = wAnimal.x
        ∧ (Animal.random_movement wAnimal 1 wBounds [wOther] wOracle).y = wAnimal.y
        ∧ (Animal.random_movement wAnimal 1 wBounds [wOther] wOracle).direction
            = wAnimal.direction
        ∧ (Animal.random_movement wAnimal 1 wBounds [wOther] wOracle).is_idle = true
        ∧ 1/2 ≤ (Animal.random_movement wAnimal 1 wBounds [wOther] wOracle).idle_duration
        ∧ (Animal.random_movement wAnimal 1 wBounds [wOther] wOracle).idle_duration ≤ 3/2) := by
  have h1 : Animal.idlePhase wAnimal 1 wBounds wOracle = .inr wAnimal := by
    norm_num [Animal.idlePhase, wAnimal, Animal.init]
  have h2 : Animal.retargetPhase wAnimal 1 wBounds wOracle = .inr wAnimal2 := by
    norm_num [Animal.retargetPhase, wAnimal, wAnimal2, Animal.init, uniform]
  have hfar : ¬ ((wAnimal2.target_x - wAnimal2.x) ^ 2
      + (wAnimal2.target_y - wAnimal2.y) ^ 2 < (1/10) ^ 2) := by
    norm_num [wAnimal2, wAnimal, Animal.init]
  have hc : Animal.check_collision_with_others wAnimal2
      (stick_in_range (wAnimal2.x + Animal.steer_dx wAnimal2 1 wOracle)
        wBounds.min_x wBounds.max_x)
      (stick_in_range (wAnimal2.y + Animal.steer_dy wAnimal2 1 wOracle)
        wBounds.min_y wBounds.max_y) [wOther] = true := by
    norm_num [Animal.check_collision_with_others, wAnimal2, wAnimal, wOther,
      Animal.init, Animal.steer_dx, Animal.steer_dy, stick_in_range, wOracle,
      wBounds, min_def, max_def]
  exact ⟨h1, h2, hfar, hc,
    (C2_collision_nonoverlap wAnimal wAnimal wAnimal2 1 wBounds [wOther] wOracle
      h1 h2 hfar (by norm_num [wOracle]) (by norm_num [wOracle])).2 hc⟩

/-- Witness for C8: with no other animals the concrete move commits; the
displacement is (12/25, 16/25), so `|dx| < |dy|` and the facing is SOUTH. -/
theorem C8_facing_direction_witness :
    Animal.idlePhase wAnimal 1 wBounds wOracle = .inr wAnimal
    ∧ Animal.retargetPhase wAnimal 1 wBounds wOracle = .inr wAnimal2
    ∧ ¬ ((wAnimal2.target_x - wAnimal2.x) ^ 2
          + (wAnimal2.target_y - wAnimal2.y) ^ 2 < (1/10) ^ 2)
    ∧ Animal.check_collision_with_others wAnimal2
        (stick_in_range (wAnimal2.x + Animal.steer_dx wAnimal2 1 wOracle)
          wBounds.min_x wBounds.max_x)
        (stick_in_range (wAnimal2.y + Animal.steer_dy wAnimal2 1 wOracle)
          wBounds.min_y wBounds.max_y) [] = false
    ∧ (Animal.random_movement wAnimal 1 wBounds [] wOracle).direction
        = Direction.SOUTH := by
  have h1 : Animal.idlePhase wAnimal 1 wBounds wOracle = .inr wAnimal := by
    norm_num [Animal.idlePhase, wAnimal, Animal.init]
  have h2 : Animal.retargetPhase wAnimal 1 wBounds wOracle = .inr wAnimal2 := by
    norm_num [Animal.retargetPhase, wAnimal, wAnimal2, Animal.init, uniform]
  have hfar : ¬ ((wAnimal2.target_x - wAnimal2.x) ^ 2
      + (wAnimal2.target_y - wAnimal2.y) ^ 2 < (1/10) ^ 2) := by
    norm_num [wAnimal2, wAnimal, Animal.init]
  have hnc : Animal.check_collision_with_others wAnimal2
      (stick_in_range (wAnimal2.x + Animal.steer_dx wAnimal2 1 wOracle)
        wBounds.min_x wBounds.max_x)
      (stick_in_range (wAnimal2.y + Animal.steer_dy wAnimal2 1 wOracle)
        wBounds.min_y wBounds.max_y) [] = false := by
    simp [Animal.check_collision_with_others]
  refine ⟨h1, h2, hfar, hnc, ?_⟩
  refine ((C8_facing_direction wAnimal wAnimal wAnimal2 1 wBounds [] wOracle
    h1 h2 hfar hnc).2.2.1).mpr ⟨?_, ?_⟩
  · norm_num [Animal.steer_dx, Animal.steer_dy, wAnimal2, wAnimal, wOracle,
      Animal.init, abs]
  · norm_num [Animal.steer_dy, wAnimal2, wAnimal, wOracle, Animal.init]

/-- C10: `create_prop` appends the prop to the props list before validating
the origin tile; with an out-of-bounds origin it returns with the list
already extended, no tile touched, and the phantom prop is picked up by
`calculate_income`. -/
theorem C10_create_prop_oob (sz : String → ℕ × ℕ) (ap pp : String → Option ℚ)
    (m : GameMap) (name : String) (x y : ℤ)
    (h : ¬ (0 ≤ x ∧ x < (m.width : ℤ) ∧ 0 ≤ y ∧ y < (m.height : ℤ))) :
    (m.create_prop sz name x y).props
        = m.props ++ [{ name := name, x := x, y := y }]
    ∧ (m.create_prop sz name x y).tiles = m.tiles
    ∧ (m.create_prop sz name x y).enclosures = m.enclosures
    ∧ calculate_income ap pp (m.create_prop sz name x y)
        = calculate_income ap pp m + (pp name).getD 0 := by
  have hg : GameMap.get_tile
      { m with props := m.props ++ [{ name := name, x := x, y := y : Props }] }
      x y = none := by
    unfold GameMap.get_tile
    exact if_neg h
  unfold GameMap.create_prop
  dsimp only
  rw [hg]
  refine ⟨rfl, rfl, rfl, ?_⟩
  unfold calculate_income
  dsimp only
  rw [List.foldl_append]
  simp

/-- Witness for C10 on a 3×3 map with origin (5, 0), which is out of
bounds. -/
theorem C10_create_prop_oob_witness :
    (¬ ((0 : ℤ) ≤ 5 ∧ (5 : ℤ) < ((emptyMap 3 3).width : ℤ)
        ∧ (0 : ℤ) ≤ 0 ∧ (0 : ℤ) < ((emptyMap 3 3).height : ℤ)))
    ∧ (((emptyMap 3 3).create_prop unitSize "rock1" 5 0).props
          = (emptyMap 3 3).props ++ [{ name := "rock1", x := 5, y := 0 }]
        ∧ ((emptyMap 3 3).create_prop unitSize "rock1" 5 0).tiles
            = (emptyMap 3 3).tiles
        ∧ ((emptyMap 3 3).create_prop unitSize "rock1" 5 0).enclosures
            = (emptyMap 3 3).enclosures
        ∧ calculate_income (fun _ => none)
            (fun n => if n = "rock1" then some 7 else none)
            ((emptyMap 3 3).create_prop unitSize "rock1" 5 0)
          = calculate_income (fun _ => none)
              (fun n => if n = "rock1" then some 7 else none) (emptyMap 3 3)
            + ((fun n => if n = "rock1" then some 7 else none) "rock1").getD 0) :=
  ⟨by decide,
    C10_create_prop_oob unitSize (fun _ => none)
      (fun n => if n = "rock1" then some 7 else none)
      (emptyMap 3 3) "rock1" 5 0 (by decide)⟩

/-- A single tile-loop step keeps the grid dimensions. -/
theorem tileFoldStep_dims (x y : ℤ) (f : ℕ → ℕ → Tile → Tile) (m : GameMap)
    (c : ℕ × ℕ) :
    (tileFoldStep x y f m c).width = m.width
    ∧ (tileFoldStep x y f m c).height = m.height := by
  unfold tileFoldStep
  cases m.get_tile (x + c.1) (y + c.2) with
  | none => exact ⟨rfl, rfl⟩
  | some t => exact ⟨rfl, rfl⟩

/-- A single tile-loop step leaves every other cell alone. -/
theorem tileFoldStep_other (x y : ℤ) (f : ℕ → ℕ → Tile → Tile) (m : GameMap)
    (c : ℕ × ℕ) (X Y : ℤ) (h : ¬ (x + c.1 = X ∧ y + c.2 = Y)) :
    (tileFoldStep x y f m c).tiles X Y = m.tiles X Y := by
  unfold tileFoldStep
  cases m.get_tile (x + c.1) (y + c.2) with
  | none => rfl
  | some t =>
    unfold GameMap.set_tile
    dsimp only
    rw [if_neg fun hc => h ⟨hc.1.symm, hc.2.symm⟩]

/-- A tile loop over cells that all avoid `(X, Y)` leaves that cell alone. -/
theorem tileFold_untouched (x y : ℤ) (f : ℕ → ℕ → Tile → Tile)
    (cells : List (ℕ × ℕ)) (m : GameMap) (X Y : ℤ)
    (h : ∀ c ∈ cells, ¬ (x + c.1 = X ∧ y + c.2 = Y)) :
    (cells.foldl (tileFoldStep x y f) m).tiles X Y = m.tiles X Y := by
  induction cells generalizing m with
  | nil => rfl
  | cons hd tl ih =>
    rw [List.foldl_cons]
    rw [ih (tileFoldStep x y f m hd) fun c hc => h c (List.mem_cons_of_mem hd hc)]
    exact tileFoldStep_other x y f m hd X Y (h hd (List.mem_cons_self hd tl))

/-- A tile loop keeps the grid dimensions. -/
theorem tileFold_dims (x y : ℤ) (f : ℕ → ℕ → Tile → Tile)
    (cells : List (ℕ × ℕ)) (m : GameMap) :
    (cells.foldl (tileFoldStep x y f) m).width = m.width
    ∧ (cells.foldl (tileFoldStep x y f) m).height = m.height := by
  induction cells generalizing m with
  | nil => exact ⟨rfl, rfl⟩
  | cons hd tl ih =>
    rw [List.foldl_cons]
    obtain ⟨w1, h1⟩ := tileFoldStep_dims x y f m hd
    obtain ⟨w2, h2⟩ := ih (tileFoldStep x y f m hd)
    exact ⟨w2.trans w1, h2.trans h1⟩

/-- In a tile loop over distinct cells, an in-bounds visited cell `(i, j)`
ends up holding exactly `f i j` of its original tile. -/
theorem tileFold_visited (x y : ℤ) (f : ℕ → ℕ → Tile → Tile)
    (cells : List (ℕ × ℕ)) (m : GameMap) (i j : ℕ)
    (hmem : (i, j) ∈ cells) (hnodup : cells.Nodup)
    (hin : 0 ≤ x + i ∧ x + i < (m.width : ℤ) ∧ 0 ≤ y + j
      ∧ y + j < (m.height : ℤ)) :
    (cells.foldl (tileFoldStep x y f) m).tiles (x + i) (y + j)
      = f i j (m.tiles (x + i) (y + j)) := by
  induction cells generalizing m with
  | nil => cases hmem
  | cons hd tl ih =>
    rw [List.foldl_cons]
    rcases List.mem_cons.mp hmem with heq | htl
    · obtain rfl := heq.symm
      have hget : m.get_tile (x + i) (y + j) = some (m.tiles (x + i) (y + j)) := by
        unfold GameMap.get_tile
        exact if_pos hin
      have hstep : tileFoldStep x y f m (i, j)
          = m.set_tile (x + i) (y + j) (f i j (m.tiles (x + i) (y + j))) := by
        unfold tileFoldStep
        rw [hget]
      rw [hstep]
      have hnot : ∀ c ∈ tl, ¬ (x + c.1 = x + i ∧ y + c.2 = y + j) := by
        intro c hc hcontra
        have hc1 : c.1 = i := by omega
        have hc2 : c.2 = j := by omega
        have : c = (i, j) := Prod.ext hc1 hc2
        exact (List.nodup_cons.mp hnodup).1 (this ▸ hc)
      rw [tileFold_untouched x y f tl _ (x + i) (y + j) hnot]
      unfold GameMap.set_tile
      dsimp only
      rw [if_pos ⟨rfl, rfl⟩]
    · have hne : hd ≠ (i, j) := by
        intro he
        exact (List.nodup_cons.mp hnodup).1 (he ▸ htl)
      have hpres : (tileFoldStep x y f m hd).tiles (x + i) (y + j)
          = m.tiles (x + i) (y + j) := by
        refine tileFoldStep_other x y f m hd (x + i) (y + j) ?_
        intro hcontra
        refine hne (Prod.ext ?_ ?_) <;> omega
      obtain ⟨hw, hh⟩ := tileFoldStep_dims x y f m hd
      have hin2 : 0 ≤ x + i ∧ x + i < ((tileFoldStep x y f m hd).width : ℤ)
          ∧ 0 ≤ y + j ∧ y + j < ((tileFoldStep x y f m hd).height : ℤ) := by
        rw [hw, hh]
        exact hin
      rw [ih (tileFoldStep x y f m hd) htl (List.nodup_cons.mp hnodup).2 hin2,
        hpres]

/-- The claim's classification rule, stated as in the spec: corner check
first (`i ∈ {0, W-1}` and `j ∈ {0, H-1}`), else TOP if `j = 0`, BOTTOM if
`j = H-1`, LEFT if `i = 0`, RIGHT if `i = W-1`, else no edge kind. -/
def edgeKindSpec (width height : ℤ) (i j : ℕ) : Option EnclosureType :=
  if (i = 0 ∨ (i : ℤ) = width - 1) ∧ (j = 0 ∨ (j : ℤ) = height - 1) then
    if i = 0 ∧ j = 0 then some .TOP_LEFT
    else if j = 0 then some .TOP_RIGHT
    else if i = 0 then some .BOTTOM_LEFT
    else some .BOTTOM_RIGHT
  else if j = 0 then some .TOP
  else if (j : ℤ) = height - 1 then some .BOTTOM
  else if i = 0 then some .LEFT
  else if (i : ℤ) = width - 1 then some .RIGHT
  else none

/-- The source's `if/elif` chain agrees with the spec's corner-first
classification on every offset, sets the main flag only at the origin, and
marks every covered tile with the enclosure. -/
theorem encTileUpdate_spec (p : Props) (width height : ℤ) (i j : ℕ)
    (t : Tile) :
    (encTileUpdate p width height i j t).enclosure_type
      = (edgeKindSpec width height i j).elim t.enclosure_type some
    ∧ (encTileUpdate p width height i j t).main_prop_tile
      = (if i = 0 ∧ j = 0 then true else t.main_prop_tile)
    ∧ (encTileUpdate p width height i j t).prop = some p
    ∧ (encTileUpdate p width height i j t).is_enc = true := by
  unfold encTileUpdate edgeKindSpec
  dsimp only
  repeat' split
  all_goals simp_all

/-- C5: after `create_enclosure`, every in-bounds covered tile at offset
`(i, j)` holds exactly the source's per-tile update of its original tile;
its edge kind follows the spec's corner-check-first rule (interior tiles
keep their previous kind, `none` on a fresh map), and the main flag is set
only at the origin offset. -/
theorem C5_edge_kind (m : GameMap) (x y width height : ℤ) (i j : ℕ)
    (hi : (i : ℤ) < width) (hj : (j : ℤ) < height)
    (hin : 0 ≤ x + i ∧ x + i < (m.width : ℤ) ∧ 0 ≤ y + j
      ∧ y + j < (m.height : ℤ)) :
    (m.create_enclosure x y width height).tiles (x + i) (y + j)
      = encTileUpdate { name := "enclosure", x := x, y := y, is_enc := true }
          width height i j (m.tiles (x + i) (y + j))
    ∧ ((m.create_enclosure x y width height).tiles (x + i) (y + j)).enclosure_type
        = (edgeKindSpec width height i j).elim
            (m.tiles (x + i) (y + j)).enclosure_type some
    ∧ ((m.create_enclosure x y width height).tiles (x + i) (y + j)).main_prop_tile
        = (if i = 0 ∧ j = 0 then true
            else (m.tiles (x + i) (y + j)).main_prop_tile) := by
  have hmain : (m.create_enclosure x y width height).tiles (x + i) (y + j)
      = encTileUpdate { name := "enclosure", x := x, y := y, is_enc := true }
          width height i j (m.tiles (x + i) (y + j)) := by
    unfold GameMap.create_enclosure
    dsimp only
    exact tileFold_visited x y _ _ _ i j
      (List.mem_product.mpr
        ⟨List.mem_range.mpr (by omega), List.mem_range.mpr (by omega)⟩)
      ((List.nodup_range _).product (List.nodup_range _))
      hin
  obtain ⟨s1, s2, -, -⟩ := encTileUpdate_spec
    { name := "enclosure", x := x, y := y, is_enc := true } width height i j
    (m.tiles (x + i) (y + j))
  exact ⟨hmain, hmain ▸ s1, hmain ▸ s2⟩

set_option maxRecDepth 40000 in
/-- Witness for C5: a 5×5 enclosure at (10, 10) on a fresh 20×20 map — tile
(10,10) is TOP_LEFT and the only main tile, (14,10) is TOP_RIGHT, (12,10)
is TOP, (12,12) is interior (no edge kind). -/
theorem C5_edge_kind_witness :
    ((2 : ℤ) < 5 ∧ (0 : ℤ) < 5
      ∧ (0 ≤ (10 : ℤ) + (2 : ℕ) ∧ (10 : ℤ) + (2 : ℕ) < ((emptyMap 20 20).width : ℤ)
          ∧ 0 ≤ (10 : ℤ) + (0 : ℕ) ∧ (10 : ℤ) + (0 : ℕ) < ((emptyMap 20 20).height : ℤ)))
    ∧ (((emptyMap 20 20).create_enclosure 10 10 5 5).tiles ((10 : ℤ) + (2 : ℕ))
          ((10 : ℤ) + (0 : ℕ))).enclosure_type
        = (edgeKindSpec 5 5 2 0).elim
            ((emptyMap 20 20).tiles ((10 : ℤ) + (2 : ℕ)) ((10 : ℤ) + (0 : ℕ))).enclosure_type
            some
    ∧ (((emptyMap 20 20).create_enclosure 10 10 5 5).tiles 10 10).enclosure_type
        = some EnclosureType.TOP_LEFT
    ∧ (((emptyMap 20 20).create_enclosure 10 10 5 5).tiles 10 10).main_prop_tile = true
    ∧ (((emptyMap 20 20).create_enclosure 10 10 5 5).tiles 14 10).enclosure_type
        = some EnclosureType.TOP_RIGHT
    ∧ (((emptyMap 20 20).create_enclosure 10 10 5 5).tiles 12 10).enclosure_type
        = some EnclosureType.TOP
    ∧ (((emptyMap 20 20).create_enclosure 10 10 5 5).tiles 12 10).main_prop_tile = false
    ∧ (((emptyMap 20 20).create_enclosure 10 10 5 5).tiles 12 12).enclosure_type = none :=
  ⟨⟨by decide, by decide, by decide⟩,
    (C5_edge_kind (emptyMap 20 20) 10 10 5 5 2 0 (by decide) (by decide)
      (by decide)).2.1,
    by decide, by decide, by decide, by decide, by decide, by decide⟩

/-- The dict lookup `PROP_PRICES[name]["income"]` over the association-list
embedding of `PROP_PRICES`. -/
def prop_income (prop_prices : List (String × ℚ)) (n : String) : Option ℚ :=
  (prop_prices.find? fun nd => nd.1 == n).map Prod.snd

/-- `random.choice` on a nonempty list returns one of its elements. -/
theorem choice_model_mem (l : List String) (d : ℕ) (h : l ≠ []) :
    choice_model l d ∈ l := by
  unfold choice_model
  have hlen : 0 < l.length := List.length_pos.mpr h
  have hlt : d % l.length < l.length := Nat.mod_lt _ hlen
  rw [List.getD_eq_getElem?_getD, List.getElem?_eq_getElem hlt]
  exact List.getElem_mem hlt

/-- With distinct keys, `find?` returns the member with the sought key. -/
theorem find_of_mem_nodup (pp : List (String × ℚ)) (n : String) (v : ℚ)
    (hnd : (pp.map Prod.fst).Nodup) (hm : (n, v) ∈ pp) :
    pp.find? (fun nd => nd.1 == n) = some (n, v) := by
  induction pp with
  | nil => cases hm
  | cons hd tl ih =>
    rcases List.mem_cons.mp hm with heq | htl
    · obtain rfl := heq.symm
      simp [List.find?]
    · by_cases hcase : hd.1 = n
      · exfalso
        have : n ∈ tl.map Prod.fst := List.mem_map_of_mem Prod.fst htl
        rw [List.map_cons] at hnd
        exact (List.nodup_cons.mp hnd).1 (hcase ▸ this)
      · have hbeq : (hd.1 == n) = false := beq_eq_false_iff_ne.mpr hcase
        rw [List.find?_cons_of_neg _ (by simp [hbeq])]
        exact ih (List.nodup_cons.mp (List.map_cons Prod.fst hd tl ▸ hnd)).2 htl

/-- A name drawn from the zero-income pool really has recorded income 0. -/
theorem availableProps_income (pp : List (String × ℚ)) (n : String)
    (hnd : (pp.map Prod.fst).Nodup) (h : n ∈ availableProps pp) :
    prop_income pp n = some 0 := by
  unfold availableProps at h
  obtain ⟨nd, hmem, heq⟩ := List.mem_map.mp h
  obtain ⟨hin, hz⟩ := List.mem_filter.mp hmem
  have hnd0 : nd = (n, 0) := by
    obtain ⟨a, b⟩ := nd
    simp only [decide_eq_true_eq] at hz
    simp only at heq
    rw [heq, hz]
  unfold prop_income
  rw [find_of_mem_nodup pp n 0 hnd (hnd0 ▸ hin)]
  rfl

/-- A successful `can_place_at` check really means: every cell of the
footprint plus the 1-tile safety margin is in bounds and free. -/
theorem can_place_at_sound (m : GameMap) (x y : ℤ) (pw ph : ℕ)
    (h : can_place_at m x y pw ph = true) :
    ∀ i j : ℤ, -1 ≤ i → i ≤ (pw : ℤ) → -1 ≤ j → j ≤ (ph : ℤ) →
      (0 ≤ x + i ∧ x + i < (m.width : ℤ) ∧ 0 ≤ y + j ∧ y + j < (m.height : ℤ)
        ∧ (m.tiles (x + i) (y + j)).prop = none) := by
  unfold can_place_at at h
  rw [List.all_eq_true] at h
  intro i j hi1 hi2 hj1 hj2
  have h1 := h ((i + 1).toNat) (List.mem_range.mpr (by omega))
  rw [List.all_eq_true] at h1
  have h2 := h1 ((j + 1).toNat) (List.mem_range.mpr (by omega))
  simp only [decide_eq_true_eq] at h2
  have ei : x + (((i + 1).toNat : ℕ) : ℤ) - 1 = x + i := by omega
  have ej : y + (((j + 1).toNat : ℕ) : ℤ) - 1 = y + j := by omega
  rw [ei, ej] at h2
  exact h2

/-- A placing attempt of the scatter loop draws its name from the available
pool and only fires on a location whose footprint-plus-margin is entirely
in bounds and free on the map as it is at that moment. -/
theorem scatter_step_sound (sz : String → ℕ × ℕ) (avail : List String)
    (m : GameMap) (d : ScatterDraw) (name : String) (x y : ℤ)
    (havail : avail ≠ [])
    (h : scatter_step sz avail m d = some (name, x, y)) :
    name ∈ avail
    ∧ can_place_at m x y (sz name).1 (sz name).2 = true
    ∧ ∀ i j : ℤ, -1 ≤ i → i ≤ ((sz name).1 : ℤ) → -1 ≤ j →
        j ≤ ((sz name).2 : ℤ) →
        (0 ≤ x + i ∧ x + i < (m.width : ℤ) ∧ 0 ≤ y + j
          ∧ y + j < (m.height : ℤ)
          ∧ (m.tiles (x + i) (y + j)).prop = none) := by
  unfold scatter_step at h
  dsimp only at h
  split at h
  · cases h
  · split at h
    · cases h
    · split at h
      · obtain ⟨rfl, rfl, rfl⟩ : choice_model avail d.propIdx = name
            ∧ randint_model 2 ((m.width : ℤ) - (sz (choice_model avail d.propIdx)).1 - 1 - 1)
                d.xDraw = x
            ∧ randint_model 2 ((m.height : ℤ) - (sz (choice_model avail d.propIdx)).2 - 1 - 1)
                d.yDraw = y := by
          have := Option.some.inj h
          exact ⟨congrArg Prod.fst this,
            congrArg (fun t => t.2.1) this, congrArg (fun t => t.2.2) this⟩
        rename_i hcp
        exact ⟨choice_model_mem avail d.propIdx havail, hcp,
          can_place_at_sound m _ _ _ _ hcp⟩
      · cases h

/-- Any fold whose step keeps the props list keeps the props list. -/
theorem foldl_props_eq (g : GameMap → ℕ × ℕ → GameMap) (l : List (ℕ × ℕ))
    (hg : ∀ acc c, (g acc c).props = acc.props) (m : GameMap) :
    (l.foldl g m).props = m.props := by
  induction l generalizing m with
  | nil => rfl
  | cons hd tl ih => rw [List.foldl_cons, ih (g m hd), hg m hd]

/-- `create_prop` appends exactly the new prop to the props list (the tile
loop only rewrites tiles). -/
theorem create_prop_props (sz : String → ℕ × ℕ) (m : GameMap) (name : String)
    (x y : ℤ) :
    (m.create_prop sz name x y).props
      = m.props ++ [{ name := name, x := x, y := y }] := by
  unfold GameMap.create_prop
  dsimp only
  cases hget : GameMap.get_tile
      { m with props := m.props ++ [{ name := name, x := x, y := y : Props }] }
      x y with
  | none => rfl
  | some t =>
    rw [foldl_props_eq]
    · rfl
    · intro acc c
      dsimp only
      split
      · rfl
      · split
        · rfl
        · rfl

/-- Loop invariant of `scatter_loop`: the attempts counter advances once per
consumed draw, the placed counter never passes `num`, and the props list
only grows by zero-income-pool props. -/
theorem scatter_loop_spec (sz : String → ℕ × ℕ) (avail : List String)
    (num : ℕ) (havail : avail ≠ []) :
    ∀ (draws : List ScatterDraw) (placed attempts : ℕ) (m : GameMap),
      placed ≤ num →
      (scatter_loop sz avail num draws placed attempts m).2.2
          ≤ attempts + draws.length
      ∧ (scatter_loop sz avail num draws placed attempts m).2.1 ≤ num
      ∧ ∃ new : List Props,
          (scatter_loop sz avail num draws placed attempts m).1.props
            = m.props ++ new
          ∧ new.length + placed
              = (scatter_loop sz avail num draws placed attempts m).2.1
          ∧ ∀ p ∈ new, p.name ∈ avail := by
  intro draws
  induction draws with
  | nil =>
    intro placed attempts m hp
    refine ⟨by simp [scatter_loop], by simpa [scatter_loop] using hp,
      [], by simp [scatter_loop], by simp [scatter_loop], by simp⟩
  | cons d rest ih =>
    intro placed attempts m hp
    show (scatter_loop sz avail num (d :: rest) placed attempts m).2.2
        ≤ attempts + (d :: rest).length ∧ _
    unfold scatter_loop
    split
    · rename_i hlt
      cases hstep : scatter_step sz avail m d with
      | none =>
        obtain ⟨b1, b2, new, hprops, hlen, hnames⟩ :=
          ih placed (attempts + 1) m hp
        dsimp only
        exact ⟨by simp only [List.length_cons]; omega,
          b2, new, hprops, hlen, hnames⟩
      | some res =>
        obtain ⟨name, x, y⟩ := res
        obtain ⟨b1, b2, new, hprops, hlen, hnames⟩ :=
          ih (placed + 1) (attempts + 1) (m.create_prop sz name x y) hlt
        dsimp only
        refine ⟨by simp only [List.length_cons]; omega,
          b2, { name := name, x := x, y := y } :: new, ?_, ?_, ?_⟩
        · rw [hprops, create_prop_props]
          simp
        · simp only [List.length_cons]
          omega
        · intro p hpmem
          rcases List.mem_cons.mp hpmem with rfl | htl
          · exact (scatter_step_sound sz avail m d name x y havail hstep).1
          · exact hnames p htl
    · dsimp only
      exact ⟨by omega, hp, [], by simp, by simp, by simp⟩

/-- C9: `generate_random_props` terminates within the attempt budget
`num_props * 50` (one attempt per consumed draw), places at most
`num_props` props, draws only zero-income prop types (each placed prop's
name is in the zero-income pool, whose recorded income is 0), and any
placing step fires only when every tile of the footprint plus the 1-tile
safety margin is in bounds and free on the map at that moment. -/
theorem C9_generate_random_props (sz : String → ℕ × ℕ)
    (prop_prices : List (String × ℚ)) (draws : List ScatterDraw)
    (num_props : ℕ) (m : GameMap)
    (havail : availableProps prop_prices ≠ [])
    (hnodup : (prop_prices.map Prod.fst).Nodup) :
    (GameMap.generate_random_props sz prop_prices draws num_props m).2.2
        ≤ num_props * 50
    ∧ (GameMap.generate_random_props sz prop_prices draws num_props m).2.1
        ≤ num_props
    ∧ (∃ new : List Props,
        (GameMap.generate_random_props sz prop_prices draws num_props m).1.props
          = m.props ++ new
        ∧ new.length
            = (GameMap.generate_random_props sz prop_prices draws num_props m).2.1
        ∧ ∀ p ∈ new, p.name ∈ availableProps prop_prices
            ∧ prop_income prop_prices p.name = some 0)
    ∧ (∀ (m2 : GameMap) (d : ScatterDraw) (name : String) (x y : ℤ),
        scatter_step sz (availableProps prop_prices) m2 d = some (name, x, y) →
        name ∈ availableProps prop_prices
        ∧ ∀ i j : ℤ, -1 ≤ i → i ≤ ((sz name).1 : ℤ) → -1 ≤ j →
            j ≤ ((sz name).2 : ℤ) →
            (0 ≤ x + i ∧ x + i < (m2.width : ℤ) ∧ 0 ≤ y + j
              ∧ y + j < (m2.height : ℤ)
              ∧ (m2.tiles (x + i) (y + j)).prop = none)) := by
  obtain ⟨b1, b2, new, hprops, hlen, hnames⟩ :=
    scatter_loop_spec sz (availableProps prop_prices) num_props havail
      (draws.take (num_props * 50)) 0 0 m (Nat.zero_le _)
  have hb1 : (GameMap.generate_random_props sz prop_prices draws num_props m).2.2
      ≤ num_props * 50 := by
    unfold GameMap.generate_random_props
    calc (scatter_loop sz (availableProps prop_prices) num_props
            (draws.take (num_props * 50)) 0 0 m).2.2
        ≤ 0 + (draws.take (num_props * 50)).length := b1
      _ ≤ num_props * 50 := by
          simp only [Nat.zero_add, List.length_take]
          omega
  refine ⟨hb1, b2, ⟨new, hprops,
    by unfold GameMap.generate_random_props; omega, ?_⟩, ?_⟩
  · intro p hp
    exact ⟨hnames p hp, availableProps_income prop_prices p.name hnodup (hnames p hp)⟩
  · intro m2 d name x y hstep
    obtain ⟨h1, -, h3⟩ :=
      scatter_step_sound sz (availableProps prop_prices) m2 d name x y havail hstep
    exact ⟨h1, h3⟩

/-- Witness for C9: one requested prop over the one-entry price table
`[("rock1", 0)]` with no draws — nothing is placed and no attempt is
consumed. -/
theorem C9_generate_random_props_witness :
    availableProps [("rock1", 0)] ≠ []
    ∧ (([("rock1", 0)] : List (String × ℚ)).map Prod.fst).Nodup
    ∧ (GameMap.generate_random_props unitSize [("rock1", 0)] [] 1
        (emptyMap 3 3)).2.2 ≤ 1 * 50
    ∧ (GameMap.generate_random_props unitSize [("rock1", 0)] [] 1
        (emptyMap 3 3)).2.1 ≤ 1 := by
  have havail : availableProps [("rock1", 0)] ≠ [] := by
    norm_num [availableProps]
  have hnodup : (([("rock1", 0)] : List (String × ℚ)).map Prod.fst).Nodup := by
    simp
  have h := C9_generate_random_props unitSize [("rock1", 0)] [] 1 (emptyMap 3 3)
    havail hnodup
  exact ⟨havail, hnodup, h.1, h.2.1⟩
